import Mathlib

/-!
Verification of the geospatial selection logic of the STREAM data viewer.

The development shallowly embeds the relevant JavaScript from the map
component (`pointInGeometry` / `pointInPolygonRings` / `isPointInRing`,
`normalizeHucCode`, `extractWatershedMetadata`, `queryHuc10ByHuc6` with its
cache and field-candidate loop, the HUC6 click handler's request-id
generation counter) and from the Pinia streams store (the selection
actions).  Coordinates are modelled as exact rationals (JavaScript numbers
are IEEE doubles; every claim under consideration is about the algorithmic
structure, not about rounding), strings as Lean `String`, JavaScript `Map`
objects and plain objects as association lists.
-/

/-! ## Geometry: ray-casting point-in-polygon test (map component) -/

/-- A planar point `[x, y]`. -/
abbrev GeoPoint := ℚ × ℚ

/-- A ring: the JS code represents a ring as an array of `[x, y]` pairs.
(Named `GeoRing` because `Ring` is taken by Mathlib.) -/
abbrev GeoRing := List GeoPoint

/-- The denominator actually used by `isPointInRing`: the JS expression
`(yj - yi || 1e-12)` substitutes `1e-12` when `yj - yi` is zero (the only
falsy rational value). -/
def rayDenominator (d : ℚ) : ℚ :=
  if d = 0 then 1 / 10 ^ 12 else d

/-- The crossing condition tested for one edge `(ring[i], ring[j])` in the
loop body of `isPointInRing`:
`yi > py !== yj > py && px < ((xj - xi) * (py - yi)) / (yj - yi || 1e-12) + xi`. -/
def edgeCrosses (p : GeoPoint) (vi vj : GeoPoint) : Bool :=
  let px := p.1
  let py := p.2
  let xi := vi.1
  let yi := vi.2
  let xj := vj.1
  let yj := vj.2
  (decide (yi > py) != decide (yj > py)) &&
    decide (px < (xj - xi) * (py - yi) / rayDenominator (yj - yi) + xi)

/-- The edge list traversed by `isPointInRing`'s loop
`for (let i = 0, j = ring.length - 1; i < ring.length; j = i++)`:
the pairs `(ring[i], ring[j])` with `j = i - 1` mod `n`, i.e. first the pair
`(ring[0], ring[n-1])` and then `(ring[i], ring[i-1])` for `i = 1 .. n-1`. -/
def ringEdges (ring : GeoRing) : List (GeoPoint × GeoPoint) :=
  match ring.getLast? with
  | none => []
  | some lastV => ring.zip (lastV :: ring)

/-- `isPointInRing(point, ring)`: the boolean `inside` is toggled for every
edge satisfying the crossing condition, starting from `false`. -/
def isPointInRing (p : GeoPoint) (ring : GeoRing) : Bool :=
  (ringEdges ring).foldl
    (fun inside e => if edgeCrosses p e.1 e.2 then !inside else inside) false

/-- `pointInPolygonRings(point, polygonRings)`: `false` for a non-array or
empty ring list; otherwise the point must be in the first (outer) ring and in
none of the remaining (hole) rings. -/
def pointInPolygonRings (p : GeoPoint) (polygonRings : List GeoRing) : Bool :=
  match polygonRings with
  | [] => false
  | outer :: holes =>
    isPointInRing p outer && holes.all (fun r => !(isPointInRing p r))

/-- The shape of the `geometry` argument of `pointInGeometry`, as the
function's own dispatch distinguishes it:
* `nullGeom` — `geometry` is null/undefined or its `type` is falsy/missing
  (this is also the case for a bare ArcGIS geometry object, which has no
  `type` field);
* `polygon` — `type === 'Polygon'`; the `coordinates` field may be absent
  (`none`);
* `multiPolygon` — `type === 'MultiPolygon'`; again `coordinates` may be
  absent;
* `other` — a truthy `type` that is neither `'Polygon'` nor
  `'MultiPolygon'`, together with the optional ArcGIS-style `rings` array. -/
inductive Geometry where
  | nullGeom : Geometry
  | polygon (coordinates : Option (List GeoRing)) : Geometry
  | multiPolygon (coordinates : Option (List (List GeoRing))) : Geometry
  | other (typeName : String) (rings : Option (List GeoRing)) : Geometry
deriving DecidableEq

/-- `pointInGeometry(pointCoords, geometry)`.  The result is `none` exactly
when the JS code would throw: `geometry.coordinates.some(...)` on a
`MultiPolygon` whose `coordinates` field is missing raises a `TypeError`.
For a `Polygon` with missing `coordinates`, `pointInPolygonRings` receives
`undefined`, fails its `Array.isArray` check and returns `false`. -/
def pointInGeometry (p : GeoPoint) : Geometry → Option Bool
  | Geometry.nullGeom => some false
  | Geometry.polygon none => some false
  | Geometry.polygon (some coords) => some (pointInPolygonRings p coords)
  | Geometry.multiPolygon none => none
  | Geometry.multiPolygon (some coords) =>
      some (coords.any (fun polyCoords => pointInPolygonRings p polyCoords))
  | Geometry.other _ (some rings) => some (pointInPolygonRings p rings)
  | Geometry.other _ none => some false

/-! ### Specification-side definitions (from the spec's words):
"ray-casting algorithm ... supporting holes via even-odd ring counting". -/

/-- Number of ring edges whose ray-crossing condition holds for `p`. -/
def crossingCount (p : GeoPoint) (ring : GeoRing) : ℕ :=
  (ringEdges ring).countP (fun e => edgeCrosses p e.1 e.2)

/-- Modelled from the spec: even-odd ray crossing parity — the point is
inside the ring iff the number of crossed edges is odd. -/
def evenOddInside (p : GeoPoint) (ring : GeoRing) : Bool :=
  crossingCount p ring % 2 == 1

/-- Modelled from the spec: a polygon (ring list) contains the point iff the
point lies inside the first (outer) ring by even-odd parity and inside none
of the subsequent (hole) rings. -/
def insidePolygonSpec (p : GeoPoint) : List GeoRing → Bool
  | [] => false
  | outer :: holes =>
    evenOddInside p outer && holes.all (fun r => !(evenOddInside p r))

/-- Successor flips evenness parity, stated on `== 1` of `% 2`. -/
theorem succ_mod_two_beq_one (n : ℕ) :
    ((n + 1) % 2 == 1) = !(n % 2 == 1) := by
  rcases Nat.mod_two_eq_zero_or_one n with h | h <;>
    simp [Nat.add_mod, h]

/-- Folding the toggle over a list computes the parity of the number of
elements satisfying the predicate, xor-ed with the start value. -/
theorem foldl_toggle_eq_parity {α : Type} (cross : α → Bool) (l : List α)
    (b : Bool) :
    l.foldl (fun inside e => if cross e then !inside else inside) b =
      xor b (l.countP cross % 2 == 1) := by
  induction l generalizing b with
  | nil => simp [List.countP_nil]
  | cons e l ih =>
    rw [List.foldl_cons, ih, List.countP_cons]
    by_cases h : cross e
    · simp only [h, if_true, succ_mod_two_beq_one]
      cases b <;> cases hc : (l.countP cross % 2 == 1) <;> rfl
    · simp [h]

/-- The toggling loop of `isPointInRing` computes exactly the even-odd
crossing parity. -/
theorem isPointInRing_eq_evenOddInside (p : GeoPoint) (ring : GeoRing) :
    isPointInRing p ring = evenOddInside p ring := by
  unfold isPointInRing evenOddInside crossingCount
  rw [foldl_toggle_eq_parity]
  simp

/-- C1: the containment test is the even-odd ray-casting test.
`pointInPolygonRings` returns true exactly when the point lies inside the
first (outer) ring by even-odd ray crossing parity and inside none of the
subsequent (hole) rings; `pointInGeometry` applies this test to a Polygon's
ring list, and a MultiPolygon contains the point exactly when at least one of
its polygons does. -/
theorem claim1_ray_casting_even_odd (p : GeoPoint) (rings : List GeoRing)
    (polys : List (List GeoRing)) :
    pointInPolygonRings p rings = insidePolygonSpec p rings
    ∧ pointInGeometry p (Geometry.polygon (some rings)) =
        some (insidePolygonSpec p rings)
    ∧ pointInGeometry p (Geometry.multiPolygon (some polys)) =
        some (polys.any (fun polyCoords => insidePolygonSpec p polyCoords)) := by
  have hall : ∀ l : List GeoRing,
      (l.all fun r => !(isPointInRing p r)) =
        (l.all fun r => !(evenOddInside p r)) := by
    intro l
    induction l with
    | nil => rfl
    | cons a l ih => simp [List.all_cons, ih, isPointInRing_eq_evenOddInside]
  have hrings : ∀ rs : List GeoRing,
      pointInPolygonRings p rs = insidePolygonSpec p rs := by
    intro rs
    cases rs with
    | nil => rfl
    | cons outer holes =>
      simp only [pointInPolygonRings, insidePolygonSpec,
        isPointInRing_eq_evenOddInside, hall]
  have hany : ∀ ps : List (List GeoRing),
      (ps.any fun polyCoords => pointInPolygonRings p polyCoords) =
        (ps.any fun polyCoords => insidePolygonSpec p polyCoords) := by
    intro ps
    induction ps with
    | nil => rfl
    | cons a ps ih => simp [List.any_cons, ih, hrings]
  exact ⟨hrings rings, by simp [pointInGeometry, hrings rings],
    by simp [pointInGeometry, hany polys]⟩

/-- C10 counterexample: a geometry of unrecognized type is *not* always
mapped to `false` — when it carries an ArcGIS-style `rings` array, the rings
test is applied and can return `true`.  Here the type is `"Foo"` and the
point `(2, 2)` lies inside the square ring. -/
theorem claim10_counterexample :
    pointInGeometry (2, 2)
        (Geometry.other "Foo"
          (some [[(0, 0), (4, 0), (4, 4), (0, 4)]])) = some true := by
  simp only [pointInGeometry, pointInPolygonRings, isPointInRing, ringEdges,
    edgeCrosses, rayDenominator, List.getLast?, List.zip, List.zipWith,
    List.foldl, List.all_nil]
  norm_num

/-- C10 (amended): `isPointInRing`'s division is always by a nonzero
denominator (`1e-12` is substituted for a zero edge height), and
`pointInGeometry` returns `false` (rather than failing) for a null geometry
or missing/falsy type, for a geometry of unrecognized type *that lacks an
ArcGIS-style rings array*, and for a `Polygon` lacking coordinates; a
geometry of unrecognized type carrying a rings array is instead tested
against those rings, and the one failing input is a `MultiPolygon` lacking
coordinates, where the code throws a `TypeError` (modelled as `none`). -/
theorem claim10_totality_amended (p : GeoPoint) (t : String)
    (rs : List GeoRing) (d : ℚ) :
    rayDenominator d ≠ 0
    ∧ pointInGeometry p Geometry.nullGeom = some false
    ∧ pointInGeometry p (Geometry.other t none) = some false
    ∧ pointInGeometry p (Geometry.polygon none) = some false
    ∧ pointInGeometry p (Geometry.other t (some rs)) =
        some (pointInPolygonRings p rs)
    ∧ pointInGeometry p (Geometry.multiPolygon none) = none := by
  refine ⟨?_, rfl, rfl, rfl, rfl, rfl⟩
  unfold rayDenominator
  by_cases h : d = 0
  · simp only [h, if_pos]
    norm_num
  · simp only [if_neg h]
    exact h

/-! ## HUC codes, watershed metadata, and the nested-feature filter -/

/-- `normalizeHucCode(code)`: keep only the (ASCII) digits,
`String(code).replace(/\D/g, '')`.  A null/undefined argument normalizes to
the empty string in the JS code; here codes are already strings. -/
def normalizeHucCode (code : String) : String :=
  ⟨code.data.filter Char.isDigit⟩

/-- The code-field candidates tried by `extractWatershedMetadata` for a
given HUC level. -/
def codeCandidates (level : ℕ) : List String :=
  ["HUC" ++ toString level, "HUC_" ++ toString level, "HU_" ++ toString level,
    "HUC_CODE", "huc", "huc_code", "code"]

/-- The name-field candidates tried by `extractWatershedMetadata`. -/
def nameCandidates (level : ℕ) : List String :=
  ["NAME", "HU_" ++ toString level ++ "_NAME",
    "HUC" ++ toString level ++ "_NAME", "WBDNAME", "name"]

/-- Feature `properties` objects, as an association list in insertion
order (JS objects; all the property names involved are non-numeric, so
`Object.keys` returns them in insertion order). -/
abbrev Props := List (String × String)

/-- `properties?.[key]` as an optional value. -/
def propsGet (properties : Props) (key : String) : Option String :=
  (properties.find? (fun e => e.1 == key)).map (fun e => e.2)

/-- The candidate-scanning loop: the first candidate key bound to a truthy
(non-empty) value wins; otherwise the result stays the initial `''`. -/
def findFirstTruthyProp (properties : Props) : List String → String
  | [] => ""
  | key :: rest =>
    match propsGet properties key with
    | some v => if v = "" then findFirstTruthyProp properties rest else v
    | none => findFirstTruthyProp properties rest

/-- All suffixes of a character list (including the empty one). -/
def charSuffixes : List Char → List (List Char)
  | [] => [[]]
  | c :: rest => (c :: rest) :: charSuffixes rest

/-- Substring test on character lists. -/
def charListContains (hay sub : List Char) : Bool :=
  (charSuffixes hay).any (fun t => sub.isPrefixOf t)

/-- One position of the regex alternative `hu_?\d`: `h`, `u`, an optional
underscore, then a digit. -/
def huDigitMatchAt : List Char → Bool
  | 'h' :: 'u' :: '_' :: c :: _ => c.isDigit
  | 'h' :: 'u' :: c :: _ => c.isDigit
  | _ => false

/-- The fuzzy code-key test `/huc|hu_?\d|code/i.test(key)`. -/
def fuzzyCodeKeyMatches (key : String) : Bool :=
  let l := key.toLower.data
  charListContains l "huc".data || (charSuffixes l).any huDigitMatchAt ||
    charListContains l "code".data

/-- The fuzzy name-key test `/name/i.test(key)`. -/
def fuzzyNameKeyMatches (key : String) : Bool :=
  charListContains key.toLower.data "name".data

/-- The `{ code, name }` object returned by `extractWatershedMetadata`. -/
structure WatershedMeta where
  code : String
  name : String
deriving DecidableEq

/-- `extractWatershedMetadata(properties, level)`: try the code candidates in
order (first truthy value wins); on failure fall back to the first key
matching the fuzzy regex (taking its value even when falsy) or `'N/A'` when
no key matches; likewise for the name. -/
def extractWatershedMetadata (properties : Props) (level : ℕ) :
    WatershedMeta :=
  let keys := properties.map (fun e => e.1)
  let code0 := findFirstTruthyProp properties (codeCandidates level)
  let code :=
    if code0 = "" then
      match keys.find? fuzzyCodeKeyMatches with
      | some key => (propsGet properties key).getD ""
      | none => "N/A"
    else code0
  let name0 := findFirstTruthyProp properties (nameCandidates level)
  let name :=
    if name0 = "" then
      match keys.find? fuzzyNameKeyMatches with
      | some key => (propsGet properties key).getD ""
      | none => "N/A"
    else name0
  { code := code, name := name }

/-- A GeoJSON feature, reduced to the `properties` object — the only part
the filtering and selection logic reads. -/
structure Feature where
  properties : Props
deriving DecidableEq

/-- A feature collection as returned by the Esri query API. -/
structure FeatureCollection where
  features : List Feature
deriving DecidableEq

/-- The `strictlyNested` filter of the HUC6 click handler: keep a feature
when the normalized HUC6 code is empty, or when the feature's normalized
HUC10 code starts with it. -/
def strictlyNested (huc6Code : String) (features : List Feature) :
    List Feature :=
  features.filter (fun feature =>
    let huc10 :=
      normalizeHucCode (extractWatershedMetadata feature.properties 10).code
    let huc6 := normalizeHucCode huc6Code
    if huc6 = "" then true else huc10.startsWith huc6)

/-! ## Streams store: selection state and actions (stores/streams.js) -/

/-- `[...new Set(l)]`: deduplicate keeping the first occurrence of each
element, preserving order. -/
def dedupFirst : List String → List String
  | [] => []
  | x :: xs => x :: (dedupFirst xs).filter (fun y => y ≠ x)

/-- Lookup in an association list modelling a JS object (first binding
wins; JS objects have unique keys, so reachable lists never bind a key
twice). -/
def mapLookup (m : List (String × List String)) (k : String) :
    Option (List String) :=
  (m.find? (fun e => e.1 == k)).map (fun e => e.2)

/-- `if (nextMap[domainCode])`: the stored values are arrays (always truthy
in JS, even when empty), so the test is key presence. -/
def mapHas (m : List (String × List String)) (k : String) : Bool :=
  (m.find? (fun e => e.1 == k)).isSome

/-- `delete nextMap[domainCode]`. -/
def mapRemove (m : List (String × List String)) (k : String) :
    List (String × List String) :=
  m.filter (fun e => !(e.1 == k))

/-- `[...new Set(Object.values(m).flat().filter(Boolean))]`: the gauge-id
list derived from the domain→gauges map. -/
def derivedDomainGaugeIds (m : List (String × List String)) : List String :=
  dedupFirst (((m.map (fun e => e.2)).flatten).filter (fun y => y ≠ ""))

/-- The selection-related refs of the streams store. -/
structure StreamsState where
  selectedGaugeIds : List String
  selectedDomainCodes : List String
  selectedDomainGaugeMap : List (String × List String)
  selectionBy : String
  selectionType : String
deriving DecidableEq

/-- The store's initial selection state. -/
def initStreamsState : StreamsState :=
  { selectedGaugeIds := []
    selectedDomainCodes := []
    selectedDomainGaugeMap := []
    selectionBy := "gauge"
    selectionType := "Single" }

/-- `clearSelectedGauges()`. -/
def clearSelectedGauges (s : StreamsState) : StreamsState :=
  { s with selectedGaugeIds := [] }

/-- `clearSelectedDomains()`. -/
def clearSelectedDomains (s : StreamsState) : StreamsState :=
  { s with selectedDomainCodes := [], selectedDomainGaugeMap := [] }

/-- `clearSelections()`. -/
def clearSelections (s : StreamsState) : StreamsState :=
  clearSelectedDomains (clearSelectedGauges s)

/-- `setSelectionBy(mode)`. -/
def setSelectionBy (mode : String) (s : StreamsState) : StreamsState :=
  clearSelections { s with selectionBy := mode }

/-- `setSelectionType(mode)`. -/
def setSelectionType (mode : String) (s : StreamsState) : StreamsState :=
  clearSelections { s with selectionType := mode }

/-- `toggleGaugeSelection(gaugeId)`: no-op for a falsy id; in `'Single'`
mode replace the selection; otherwise remove the id when present, append it
when absent. -/
def toggleGaugeSelection (gaugeId : String) (s : StreamsState) :
    StreamsState :=
  if gaugeId = "" then s
  else if s.selectionType = "Single" then
    { s with selectedGaugeIds := [gaugeId] }
  else if gaugeId ∈ s.selectedGaugeIds then
    { s with selectedGaugeIds :=
        s.selectedGaugeIds.filter (fun id => id ≠ gaugeId) }
  else
    { s with selectedGaugeIds := s.selectedGaugeIds ++ [gaugeId] }

/-- `setSelectedGauges(gaugeIds)`: `[...new Set(gaugeIds.filter(Boolean))]`. -/
def setSelectedGauges (gaugeIds : List String) (s : StreamsState) :
    StreamsState :=
  { s with selectedGaugeIds :=
      dedupFirst (gaugeIds.filter (fun id => id ≠ "")) }

/-- `toggleDomainSelection(domainCode, gaugeIdsForDomain)`: no-op for a
falsy code; `nextGaugeIds` deduplicates then truthy-filters the argument;
`'Single'` mode replaces the whole selection, otherwise the code's map entry
is toggled and the codes and gauge ids are recomputed from the map. -/
def toggleDomainSelection (domainCode : String) (gaugeIdsForDomain : List String)
    (s : StreamsState) : StreamsState :=
  if domainCode = "" then s
  else
    let nextGaugeIds := (dedupFirst gaugeIdsForDomain).filter (fun y => y ≠ "")
    if s.selectionType = "Single" then
      { s with selectedDomainGaugeMap := [(domainCode, nextGaugeIds)]
               selectedDomainCodes := [domainCode]
               selectedGaugeIds := nextGaugeIds }
    else
      let nextMap :=
        if mapHas s.selectedDomainGaugeMap domainCode then
          mapRemove s.selectedDomainGaugeMap domainCode
        else
          s.selectedDomainGaugeMap ++ [(domainCode, nextGaugeIds)]
      { s with selectedDomainGaugeMap := nextMap
               selectedDomainCodes := nextMap.map (fun e => e.1)
               selectedGaugeIds := derivedDomainGaugeIds nextMap }

/-! ### Basic lemmas about the store's set-like lists -/

/-- Deduplication does not change membership. -/
theorem mem_dedupFirst (a : String) : ∀ l : List String,
    a ∈ dedupFirst l ↔ a ∈ l := by
  intro l
  induction l with
  | nil => simp [dedupFirst]
  | cons x xs ih =>
    by_cases hax : a = x
    · simp [dedupFirst, hax]
    · simp [dedupFirst, hax, List.mem_filter, ih]

/-- Deduplication yields a duplicate-free list. -/
theorem dedupFirst_nodup : ∀ l : List String, (dedupFirst l).Nodup := by
  intro l
  induction l with
  | nil => simp [dedupFirst]
  | cons x xs ih =>
    refine List.nodup_cons.mpr ⟨?_, ih.filter _⟩
    intro hmem
    have h := List.of_mem_filter hmem
    simp at h

/-- A key is absent exactly when `mapHas` says so. -/
theorem mapHas_eq_false_iff (m : List (String × List String)) (k : String) :
    mapHas m k = false ↔ k ∉ m.map (fun e => e.1) := by
  have h1 : mapHas m k = false ↔
      List.find? (fun e => e.1 == k) m = none := by
    unfold mapHas
    cases List.find? (fun e => e.1 == k) m <;> simp
  rw [h1, List.find?_eq_none]
  constructor
  · intro h hk
    rcases List.mem_map.mp hk with ⟨e, he, hk⟩
    exact absurd (beq_iff_eq.mpr hk) (h e he)
  · intro h e he
    intro hbeq
    exact h (List.mem_map.mpr ⟨e, he, beq_iff_eq.mp hbeq⟩)

/-- C6: in `'Single'` cardinality a toggle replaces rather than
accumulates — `toggleGaugeSelection` leaves exactly the one toggled gauge
selected, and `toggleDomainSelection` leaves exactly the one toggled domain
code, the map with that code as only key, and the deduplicated,
truthy-filtered gauge ids of that domain. -/
theorem claim6_single_replaces (s : StreamsState) (gaugeId domainCode : String)
    (gaugeIds : List String) (hType : s.selectionType = "Single") :
    (gaugeId ≠ "" →
      (toggleGaugeSelection gaugeId s).selectedGaugeIds = [gaugeId])
    ∧ (domainCode ≠ "" →
        (toggleDomainSelection domainCode gaugeIds s).selectedDomainCodes =
            [domainCode]
        ∧ (toggleDomainSelection domainCode gaugeIds s).selectedDomainGaugeMap =
            [(domainCode, (dedupFirst gaugeIds).filter (fun y => y ≠ ""))]
        ∧ (toggleDomainSelection domainCode gaugeIds s).selectedGaugeIds =
            (dedupFirst gaugeIds).filter (fun y => y ≠ "")) := by
  constructor
  · intro hId
    simp [toggleGaugeSelection, hId, hType]
  · intro hCode
    refine ⟨?_, ?_, ?_⟩ <;> simp [toggleDomainSelection, hCode, hType]

/-- Witness for C6 at a concrete state and arguments. -/
theorem claim6_single_replaces_witness :
    (toggleGaugeSelection "g2"
        { selectedGaugeIds := ["g1"]
          selectedDomainCodes := ["d0"]
          selectedDomainGaugeMap := [("d0", ["g1"])]
          selectionBy := "gauge"
          selectionType := "Single" }).selectedGaugeIds = ["g2"] :=
  (claim6_single_replaces
      { selectedGaugeIds := ["g1"]
        selectedDomainCodes := ["d0"]
        selectedDomainGaugeMap := [("d0", ["g1"])]
        selectionBy := "gauge"
        selectionType := "Single" }
      "g2" "d1" ["a", "a", "", "b"] rfl).1 (by decide)

/-- C7: switching the selection mode or cardinality clears all selection
state: both lists become empty and the domain→gauges map becomes empty, so a
selection made in one mode never persists into the other. -/
theorem claim7_mode_switch_clears (mode : String) (s : StreamsState) :
    (setSelectionBy mode s).selectedGaugeIds = []
    ∧ (setSelectionBy mode s).selectedDomainCodes = []
    ∧ (setSelectionBy mode s).selectedDomainGaugeMap = []
    ∧ (setSelectionType mode s).selectedGaugeIds = []
    ∧ (setSelectionType mode s).selectedDomainCodes = []
    ∧ (setSelectionType mode s).selectedDomainGaugeMap = [] :=
  ⟨rfl, rfl, rfl, rfl, rfl, rfl⟩

/-! ### C8: the selection lists behave as sets of identifiers -/

/-- The store operations named by the claim, as events. -/
inductive StoreOp where
  | toggleGauge (gaugeId : String) : StoreOp
  | setGauges (gaugeIds : List String) : StoreOp
  | toggleDomain (domainCode : String) (gaugeIds : List String) : StoreOp
  | clearGauges : StoreOp
  | clearDomains : StoreOp
  | clearAll : StoreOp
  | setBy (mode : String) : StoreOp
  | setType (mode : String) : StoreOp

/-- Interpretation of a store operation. -/
def applyStoreOp (s : StreamsState) : StoreOp → StreamsState
  | StoreOp.toggleGauge gaugeId => toggleGaugeSelection gaugeId s
  | StoreOp.setGauges gaugeIds => setSelectedGauges gaugeIds s
  | StoreOp.toggleDomain domainCode gaugeIds =>
      toggleDomainSelection domainCode gaugeIds s
  | StoreOp.clearGauges => clearSelectedGauges s
  | StoreOp.clearDomains => clearSelectedDomains s
  | StoreOp.clearAll => clearSelections s
  | StoreOp.setBy mode => setSelectionBy mode s
  | StoreOp.setType mode => setSelectionType mode s

/-- Run a sequence of store operations from the initial state. -/
def runStoreOps (ops : List StoreOp) : StreamsState :=
  ops.foldl applyStoreOp initStreamsState

/-- The strengthened invariant: both selection lists and the map's key list
are duplicate-free and free of falsy (empty) identifiers. -/
def StoreInv (s : StreamsState) : Prop :=
  s.selectedGaugeIds.Nodup
  ∧ (∀ x ∈ s.selectedGaugeIds, x ≠ "")
  ∧ s.selectedDomainCodes.Nodup
  ∧ (∀ x ∈ s.selectedDomainCodes, x ≠ "")
  ∧ (s.selectedDomainGaugeMap.map (fun e => e.1)).Nodup
  ∧ (∀ x ∈ s.selectedDomainGaugeMap.map (fun e => e.1), x ≠ "")

/-- The derived gauge-id list is always duplicate-free and truthy. -/
theorem derivedDomainGaugeIds_ok (m : List (String × List String)) :
    (derivedDomainGaugeIds m).Nodup
    ∧ ∀ x ∈ derivedDomainGaugeIds m, x ≠ "" := by
  refine ⟨dedupFirst_nodup _, ?_⟩
  intro x hx
  unfold derivedDomainGaugeIds at hx
  rw [mem_dedupFirst] at hx
  have h := List.of_mem_filter hx
  simpa using h

/-- Keys of a filtered map form a sublist of the original keys. -/
theorem mapRemove_keys_sublist (m : List (String × List String)) (k : String) :
    List.Sublist ((mapRemove m k).map (fun e => e.1))
      (m.map (fun e => e.1)) :=
  (List.filter_sublist m).map (fun e => e.1)

/-- Every store operation preserves the strengthened invariant. -/
theorem StoreInv_applyStoreOp (s : StreamsState) (op : StoreOp)
    (h : StoreInv s) : StoreInv (applyStoreOp s op) := by
  obtain ⟨hgN, hgF, hcN, hcF, hkN, hkF⟩ := h
  cases op with
  | toggleGauge gaugeId =>
    show StoreInv (toggleGaugeSelection gaugeId s)
    unfold toggleGaugeSelection
    by_cases h0 : gaugeId = ""
    · simp only [h0, if_true]
      exact ⟨hgN, hgF, hcN, hcF, hkN, hkF⟩
    · simp only [h0, if_false, if_neg]
      by_cases hS : s.selectionType = "Single"
      · simp only [hS, if_true, if_pos]
        exact ⟨List.nodup_singleton _,
          fun x hx => (List.mem_singleton.mp hx) ▸ h0, hcN, hcF, hkN, hkF⟩
      · simp only [hS, if_false, if_neg]
        by_cases hmem : gaugeId ∈ s.selectedGaugeIds
        · simp only [hmem, if_true, if_pos]
          exact ⟨hgN.filter _,
            fun x hx => hgF x (List.mem_of_mem_filter hx), hcN, hcF, hkN, hkF⟩
        · simp only [hmem, if_false, if_neg]
          refine ⟨?_, ?_, hcN, hcF, hkN, hkF⟩
          · exact List.nodup_append.mpr ⟨hgN, List.nodup_singleton _,
              fun a ha hb => hmem ((List.mem_singleton.mp hb) ▸ ha)⟩
          · intro x hx
            rcases List.mem_append.mp hx with hx | hx
            · exact hgF x hx
            · exact (List.mem_singleton.mp hx) ▸ h0
  | setGauges gaugeIds =>
    show StoreInv (setSelectedGauges gaugeIds s)
    refine ⟨dedupFirst_nodup _, ?_, hcN, hcF, hkN, hkF⟩
    intro x hx
    have hx2 := (mem_dedupFirst x _).mp hx
    have h := List.of_mem_filter hx2
    simpa using h
  | toggleDomain domainCode gaugeIds =>
    show StoreInv (toggleDomainSelection domainCode gaugeIds s)
    unfold toggleDomainSelection
    by_cases h0 : domainCode = ""
    · simp only [h0, if_true]
      exact ⟨hgN, hgF, hcN, hcF, hkN, hkF⟩
    · simp only [h0, if_false, if_neg]
      have hnextN : ((dedupFirst gaugeIds).filter (fun y => y ≠ "")).Nodup :=
        (dedupFirst_nodup _).filter _
      have hnextF : ∀ x ∈ (dedupFirst gaugeIds).filter (fun y => y ≠ ""),
          x ≠ "" := by
        intro x hx
        have h := List.of_mem_filter hx
        simpa using h
      by_cases hS : s.selectionType = "Single"
      · simp only [hS, if_true, if_pos]
        exact ⟨hnextN, hnextF, List.nodup_singleton _,
          fun x hx => (List.mem_singleton.mp hx) ▸ h0,
          by simp,
          by intro x hx; simp at hx; exact hx ▸ h0⟩
      · simp only [hS, if_false, if_neg]
        by_cases hHas : mapHas s.selectedDomainGaugeMap domainCode
        · simp only [hHas, if_true, if_pos]
          have hsub := mapRemove_keys_sublist s.selectedDomainGaugeMap domainCode
          refine ⟨(derivedDomainGaugeIds_ok _).1, (derivedDomainGaugeIds_ok _).2,
            hkN.sublist hsub, fun x hx => hkF x (hsub.subset hx),
            hkN.sublist hsub, fun x hx => hkF x (hsub.subset hx)⟩
        · simp only [Bool.not_eq_true] at hHas
          have habs := (mapHas_eq_false_iff _ _).mp hHas
          simp only [hHas, if_false, Bool.false_eq_true, if_neg]
          have hkeys : ((s.selectedDomainGaugeMap ++
              [(domainCode, (dedupFirst gaugeIds).filter (fun y => y ≠ ""))]).map
                (fun e => e.1)) =
              s.selectedDomainGaugeMap.map (fun e => e.1) ++ [domainCode] := by
            simp
          have hN2 : ((s.selectedDomainGaugeMap ++
              [(domainCode, (dedupFirst gaugeIds).filter (fun y => y ≠ ""))]).map
                (fun e => e.1)).Nodup := by
            rw [hkeys]
            exact List.nodup_append.mpr ⟨hkN, List.nodup_singleton _,
              fun a ha hb => habs ((List.mem_singleton.mp hb) ▸ ha)⟩
          have hF2 : ∀ x ∈ ((s.selectedDomainGaugeMap ++
              [(domainCode, (dedupFirst gaugeIds).filter (fun y => y ≠ ""))]).map
                (fun e => e.1)), x ≠ "" := by
            rw [hkeys]
            intro x hx
            rcases List.mem_append.mp hx with hx | hx
            · exact hkF x hx
            · exact (List.mem_singleton.mp hx) ▸ h0
          exact ⟨(derivedDomainGaugeIds_ok _).1, (derivedDomainGaugeIds_ok _).2,
            hN2, hF2, hN2, hF2⟩
  | clearGauges =>
    exact ⟨List.nodup_nil, fun x hx => absurd hx (List.not_mem_nil x),
      hcN, hcF, hkN, hkF⟩
  | clearDomains =>
    exact ⟨hgN, hgF, List.nodup_nil,
      fun x hx => absurd hx (List.not_mem_nil x), List.nodup_nil,
      fun x hx => absurd hx (List.not_mem_nil x)⟩
  | clearAll =>
    exact ⟨List.nodup_nil, fun x hx => absurd hx (List.not_mem_nil x),
      List.nodup_nil, fun x hx => absurd hx (List.not_mem_nil x),
      List.nodup_nil, fun x hx => absurd hx (List.not_mem_nil x)⟩
  | setBy mode =>
    exact ⟨List.nodup_nil, fun x hx => absurd hx (List.not_mem_nil x),
      List.nodup_nil, fun x hx => absurd hx (List.not_mem_nil x),
      List.nodup_nil, fun x hx => absurd hx (List.not_mem_nil x)⟩
  | setType mode =>
    exact ⟨List.nodup_nil, fun x hx => absurd hx (List.not_mem_nil x),
      List.nodup_nil, fun x hx => absurd hx (List.not_mem_nil x),
      List.nodup_nil, fun x hx => absurd hx (List.not_mem_nil x)⟩

/-- The invariant holds along any run from the initial state. -/
theorem StoreInv_runStoreOps (ops : List StoreOp) :
    StoreInv (runStoreOps ops) := by
  have haux : ∀ (l : List StoreOp) (s : StreamsState), StoreInv s →
      StoreInv (l.foldl applyStoreOp s) := by
    intro l
    induction l with
    | nil => intro s hs; exact hs
    | cons op l ih =>
      intro s hs
      exact ih _ (StoreInv_applyStoreOp s op hs)
  exact haux ops initStreamsState
    ⟨List.nodup_nil, fun x hx => absurd hx (List.not_mem_nil x),
      List.nodup_nil, fun x hx => absurd hx (List.not_mem_nil x),
      List.nodup_nil, fun x hx => absurd hx (List.not_mem_nil x)⟩

/-- C8: starting from empty selections, every sequence of store operations
leaves `selectedGaugeIds` and `selectedDomainCodes` duplicate-free and free
of falsy (empty) identifiers — the lists behave as sets of identifiers. -/
theorem claim8_selection_lists_are_sets (ops : List StoreOp) :
    (runStoreOps ops).selectedGaugeIds.Nodup
    ∧ (∀ x ∈ (runStoreOps ops).selectedGaugeIds, x ≠ "")
    ∧ (runStoreOps ops).selectedDomainCodes.Nodup
    ∧ (∀ x ∈ (runStoreOps ops).selectedDomainCodes, x ≠ "") := by
  obtain ⟨h1, h2, h3, h4, _, _⟩ := StoreInv_runStoreOps ops
  exact ⟨h1, h2, h3, h4⟩

/-! ### C9: toggling twice, association-list lemmas -/

/-- `find?` commutes with a filter whose predicate is implied by the
search predicate. -/
theorem find?_filter_of_imp {α : Type} (l : List α) (p q : α → Bool)
    (h : ∀ a, p a = true → q a = true) :
    (l.filter q).find? p = l.find? p := by
  induction l with
  | nil => rfl
  | cons a l ih =>
    by_cases hq : q a
    · rw [List.filter_cons_of_pos hq, List.find?_cons, List.find?_cons]
      cases hp : p a <;> simp [ih]
    · have hp : p a = false := by
        cases hpa : p a
        · rfl
        · exact absurd (h a hpa) hq
      rw [List.filter_cons_of_neg hq, List.find?_cons, hp, ih]

/-- Removing a key from the map leaves lookups of other keys unchanged. -/
theorem mapLookup_mapRemove_ne (m : List (String × List String))
    (code k : String) (hk : k ≠ code) :
    mapLookup (mapRemove m code) k = mapLookup m k := by
  unfold mapLookup mapRemove
  rw [find?_filter_of_imp]
  intro e he
  have he1 : e.1 = k := beq_iff_eq.mp he
  simp [he1, hk]

/-- After removing a key, it cannot be found any more. -/
theorem find?_mapRemove_self (m : List (String × List String))
    (code : String) :
    (mapRemove m code).find? (fun e => e.1 == code) = none := by
  rw [List.find?_eq_none]
  intro e he
  have h := List.of_mem_filter he
  simp only [Bool.not_eq_eq_eq_not, Bool.not_true] at h
  simp [h]

/-- Removing an absent key is the identity. -/
theorem mapRemove_eq_self (m : List (String × List String)) (code : String)
    (h : code ∉ m.map (fun e => e.1)) : mapRemove m code = m := by
  apply List.filter_eq_self.mpr
  intro e he
  have : e.1 ≠ code := fun hc => h (List.mem_map.mpr ⟨e, he, hc⟩)
  simp [this]

/-- With duplicate-free keys, `find?` locates any member entry with the
searched key. -/
theorem find?_eq_of_keys_nodup (m : List (String × List String))
    (e : String × List String) (code : String)
    (hN : (m.map (fun x => x.1)).Nodup) (he : e ∈ m) (hk : e.1 = code) :
    m.find? (fun x => x.1 == code) = some e := by
  induction m with
  | nil => exact absurd he (List.not_mem_nil e)
  | cons f m ih =>
    rw [List.map_cons, List.nodup_cons] at hN
    rcases List.mem_cons.mp he with hef | hem
    · subst hef
      rw [List.find?_cons]
      simp [hk]
    · have hf : (f.1 == code) = false := by
        apply beq_eq_false_iff_ne.mpr
        intro hfc
        apply hN.1
        rw [hfc, ← hk]
        exact List.mem_map.mpr ⟨e, hem, rfl⟩
      rw [List.find?_cons, hf]
      exact ih hN.2 hem

/-- Key membership after a removal. -/
theorem mem_keys_mapRemove (m : List (String × List String))
    (code x : String) :
    x ∈ (mapRemove m code).map (fun e => e.1) ↔
      x ∈ m.map (fun e => e.1) ∧ x ≠ code := by
  unfold mapRemove
  constructor
  · intro hx
    rcases List.mem_map.mp hx with ⟨e, he, hex⟩
    have hmem := List.mem_of_mem_filter he
    have hcond := List.of_mem_filter he
    simp only [Bool.not_eq_eq_eq_not, Bool.not_true, beq_eq_false_iff_ne] at hcond
    exact ⟨List.mem_map.mpr ⟨e, hmem, hex⟩, hex ▸ hcond⟩
  · rintro ⟨hx, hne⟩
    rcases List.mem_map.mp hx with ⟨e, he, hex⟩
    refine List.mem_map.mpr ⟨e, List.mem_filter.mpr ⟨he, ?_⟩, hex⟩
    simp [hex ▸ hne]

/-- Membership in the flattened values of a map. -/
theorem mem_flatten_values (m : List (String × List String)) (x : String) :
    x ∈ (m.map (fun e => e.2)).flatten ↔ ∃ e ∈ m, x ∈ e.2 := by
  rw [List.mem_flatten]
  constructor
  · rintro ⟨l, hl, hx⟩
    rcases List.mem_map.mp hl with ⟨e, he, hel⟩
    exact ⟨e, he, hel ▸ hx⟩
  · rintro ⟨e, he, hx⟩
    exact ⟨e.2, List.mem_map.mpr ⟨e, he, rfl⟩, hx⟩

/-- Membership in the derived gauge-id list. -/
theorem mem_derivedDomainGaugeIds (m : List (String × List String))
    (x : String) :
    x ∈ derivedDomainGaugeIds m ↔ x ≠ "" ∧ ∃ e ∈ m, x ∈ e.2 := by
  unfold derivedDomainGaugeIds
  rw [mem_dedupFirst, List.mem_filter, mem_flatten_values]
  constructor
  · rintro ⟨h1, h2⟩
    exact ⟨by simpa using h2, h1⟩
  · rintro ⟨h1, h2⟩
    exact ⟨h2, by simpa using h1⟩

/-- A `mapHas`-false map has no `find?` result for that key. -/
theorem find?_eq_none_of_mapHas_false (m : List (String × List String))
    (k : String) (h : mapHas m k = false) :
    m.find? (fun e => e.1 == k) = none := by
  unfold mapHas at h
  cases hf : m.find? (fun e => e.1 == k) with
  | none => rfl
  | some e => rw [hf] at h; simp at h

/-- `[...new Set(gaugeIdsForDomain)].filter(Boolean)` — the gauge-id list
stored for a newly toggled domain. -/
def nextDomainGaugeIds (gaugeIdsForDomain : List String) : List String :=
  (dedupFirst gaugeIdsForDomain).filter (fun y => y ≠ "")

/-- The state after the `'Multiple'`-mode removal branch of
`toggleDomainSelection`. -/
def domainRemoveState (s : StreamsState) (domainCode : String) : StreamsState :=
  { s with
    selectedDomainGaugeMap := mapRemove s.selectedDomainGaugeMap domainCode
    selectedDomainCodes :=
      (mapRemove s.selectedDomainGaugeMap domainCode).map (fun e => e.1)
    selectedGaugeIds :=
      derivedDomainGaugeIds (mapRemove s.selectedDomainGaugeMap domainCode) }

/-- The state after the `'Multiple'`-mode insertion branch of
`toggleDomainSelection`. -/
def domainAddState (s : StreamsState) (domainCode : String)
    (gaugeIdsForDomain : List String) : StreamsState :=
  { s with
    selectedDomainGaugeMap := s.selectedDomainGaugeMap ++
      [(domainCode, nextDomainGaugeIds gaugeIdsForDomain)]
    selectedDomainCodes := (s.selectedDomainGaugeMap ++
      [(domainCode, nextDomainGaugeIds gaugeIdsForDomain)]).map (fun e => e.1)
    selectedGaugeIds := derivedDomainGaugeIds (s.selectedDomainGaugeMap ++
      [(domainCode, nextDomainGaugeIds gaugeIdsForDomain)]) }

/-- The `'Multiple'`-mode branch of `toggleDomainSelection`, written out. -/
theorem toggleDomainSelection_multiple (domainCode : String)
    (gaugeIds : List String) (s : StreamsState) (h0 : ¬ domainCode = "")
    (hS : ¬ s.selectionType = "Single") :
    toggleDomainSelection domainCode gaugeIds s =
      if mapHas s.selectedDomainGaugeMap domainCode then
        domainRemoveState s domainCode
      else
        domainAddState s domainCode gaugeIds := by
  unfold toggleDomainSelection domainRemoveState domainAddState
    nextDomainGaugeIds
  simp only [h0, if_false, hS, if_neg]
  by_cases hHas : mapHas s.selectedDomainGaugeMap domainCode
  · simp only [hHas, if_true, if_pos]
  · simp only [hHas, Bool.false_eq_true, if_false, if_neg]

/-- The state used to refute C9's domain half as originally stated. -/
def cexStreamsState : StreamsState :=
  { selectedGaugeIds := ["a"]
    selectedDomainCodes := ["d"]
    selectedDomainGaugeMap := [("d", ["a"])]
    selectionBy := "domain"
    selectionType := "Multiple" }

/-- C9 counterexample: in `'Multiple'` mode, from the duplicate-free state
with domain `"d"` selected with stored gauge list `["a"]`, calling
`toggleDomainSelection("d", ["b"])` twice with the same arguments does *not*
return `selectedGaugeIds` (nor the map entry) to the same set as before:
`"a"` was selected before and is gone afterwards (the re-added entry holds
`["b"]`, rebuilt from the argument rather than from the removed entry). -/
theorem claim9_counterexample :
    cexStreamsState.selectionType = "Multiple"
    ∧ cexStreamsState.selectedGaugeIds.Nodup
    ∧ cexStreamsState.selectedDomainCodes.Nodup
    ∧ (cexStreamsState.selectedDomainGaugeMap.map (fun e => e.1)).Nodup
    ∧ ("d" : String) ≠ ""
    ∧ "a" ∈ cexStreamsState.selectedGaugeIds
    ∧ "a" ∉ (toggleDomainSelection "d" ["b"]
        (toggleDomainSelection "d" ["b"] cexStreamsState)).selectedGaugeIds := by
  decide

/-- The state after the `'Multiple'`-mode removal branch of
`toggleGaugeSelection`. -/
def gaugeRemoveState (s : StreamsState) (gaugeId : String) : StreamsState :=
  { s with
    selectedGaugeIds := s.selectedGaugeIds.filter (fun id => id ≠ gaugeId) }

/-- The state after the `'Multiple'`-mode append branch of
`toggleGaugeSelection`. -/
def gaugeAddState (s : StreamsState) (gaugeId : String) : StreamsState :=
  { s with selectedGaugeIds := s.selectedGaugeIds ++ [gaugeId] }

/-- The `'Multiple'`-mode branches of `toggleGaugeSelection`, written out. -/
theorem toggleGaugeSelection_multiple (gaugeId : String) (s : StreamsState)
    (h0 : ¬ gaugeId = "") (hS : ¬ s.selectionType = "Single") :
    toggleGaugeSelection gaugeId s =
      if gaugeId ∈ s.selectedGaugeIds then gaugeRemoveState s gaugeId
      else gaugeAddState s gaugeId := by
  unfold toggleGaugeSelection gaugeRemoveState gaugeAddState
  simp only [h0, if_false, hS, if_neg]

/-- C9 (amended): in `'Multiple'` cardinality, toggling the same non-empty
gauge id twice returns `selectedGaugeIds` to the same set of identifiers for
*every* starting state; toggling the same non-empty domain code twice with
the same `gaugeIds` argument returns `selectedDomainCodes`,
`selectedDomainGaugeMap` and `selectedGaugeIds` to the same sets and map
entries *provided* the state is consistent with the map: the map keys are
duplicate-free, `selectedDomainCodes` holds exactly the map keys,
`selectedGaugeIds` holds exactly the gauge ids derived from the map, and a
pre-existing entry for the code equals the deduplicated, truthy-filtered
`gaugeIds` argument (as is the case for states produced by the store's own
operations with that argument). -/
theorem claim9_toggle_twice_amended :
    (∀ (s : StreamsState) (gaugeId : String),
        s.selectionType = "Multiple" → gaugeId ≠ "" →
        ∀ x, x ∈ (toggleGaugeSelection gaugeId
              (toggleGaugeSelection gaugeId s)).selectedGaugeIds ↔
            x ∈ s.selectedGaugeIds)
    ∧ (∀ (s : StreamsState) (domainCode : String) (gaugeIds : List String),
        s.selectionType = "Multiple" → domainCode ≠ "" →
        (s.selectedDomainGaugeMap.map (fun e => e.1)).Nodup →
        (∀ x, x ∈ s.selectedDomainCodes ↔
            x ∈ s.selectedDomainGaugeMap.map (fun e => e.1)) →
        (∀ x, x ∈ s.selectedGaugeIds ↔
            x ∈ derivedDomainGaugeIds s.selectedDomainGaugeMap) →
        (∀ v, mapLookup s.selectedDomainGaugeMap domainCode = some v →
            v = nextDomainGaugeIds gaugeIds) →
        (∀ k, mapLookup (toggleDomainSelection domainCode gaugeIds
              (toggleDomainSelection domainCode gaugeIds
                s)).selectedDomainGaugeMap k =
            mapLookup s.selectedDomainGaugeMap k)
        ∧ (∀ x, x ∈ (toggleDomainSelection domainCode gaugeIds
              (toggleDomainSelection domainCode gaugeIds
                s)).selectedDomainCodes ↔
            x ∈ s.selectedDomainCodes)
        ∧ (∀ x, x ∈ (toggleDomainSelection domainCode gaugeIds
              (toggleDomainSelection domainCode gaugeIds
                s)).selectedGaugeIds ↔
            x ∈ s.selectedGaugeIds)) := by
  constructor
  · -- gauge half
    intro s gaugeId hS h0 x
    have hS' : ¬ s.selectionType = "Single" := by rw [hS]; decide
    rw [toggleGaugeSelection_multiple gaugeId s h0 hS']
    by_cases hmem : gaugeId ∈ s.selectedGaugeIds
    · rw [if_pos hmem,
        toggleGaugeSelection_multiple gaugeId (gaugeRemoveState s gaugeId)
          h0 hS']
      have hnm : gaugeId ∉ (gaugeRemoveState s gaugeId).selectedGaugeIds := by
        show gaugeId ∉ s.selectedGaugeIds.filter (fun id => id ≠ gaugeId)
        intro hg
        have h := List.of_mem_filter hg
        simp at h
      rw [if_neg hnm]
      show x ∈ s.selectedGaugeIds.filter (fun id => id ≠ gaugeId) ++ [gaugeId] ↔
          x ∈ s.selectedGaugeIds
      rcases eq_or_ne x gaugeId with hx | hx
      · subst hx
        simp [hmem]
      · simp [List.mem_append, List.mem_filter, hx]
    · rw [if_neg hmem,
        toggleGaugeSelection_multiple gaugeId (gaugeAddState s gaugeId) h0 hS']
      have hm2 : gaugeId ∈ (gaugeAddState s gaugeId).selectedGaugeIds := by
        show gaugeId ∈ s.selectedGaugeIds ++ [gaugeId]
        simp
      rw [if_pos hm2]
      show x ∈ (s.selectedGaugeIds ++ [gaugeId]).filter
          (fun id => id ≠ gaugeId) ↔ x ∈ s.selectedGaugeIds
      rw [List.filter_append]
      have h1 : s.selectedGaugeIds.filter (fun id => id ≠ gaugeId) =
          s.selectedGaugeIds := by
        apply List.filter_eq_self.mpr
        intro a ha
        simp only [ne_eq, decide_not, Bool.not_eq_eq_eq_not, Bool.not_true,
          decide_eq_false_iff_not]
        intro hag
        exact hmem (hag ▸ ha)
      have h2 : ([gaugeId] : List String).filter (fun id => id ≠ gaugeId) =
          [] := by simp
      rw [h1, h2, List.append_nil]
  · -- domain half
    intro s domainCode gaugeIds hS h0 hkN hcodes hgauges hentry
    have hS' : ¬ s.selectionType = "Single" := by rw [hS]; decide
    rw [toggleDomainSelection_multiple domainCode gaugeIds s h0 hS']
    by_cases hHas : mapHas s.selectedDomainGaugeMap domainCode
    · -- the code was selected: entry removed, then re-added
      rw [if_pos hHas,
        toggleDomainSelection_multiple domainCode gaugeIds
          (domainRemoveState s domainCode) h0 hS']
      have hHas2 : ¬ mapHas
          (domainRemoveState s domainCode).selectedDomainGaugeMap
          domainCode = true := by
        show ¬ mapHas (mapRemove s.selectedDomainGaugeMap domainCode)
            domainCode = true
        unfold mapHas
        rw [find?_mapRemove_self]
        simp
      rw [if_neg hHas2]
      obtain ⟨e, hfind⟩ : ∃ e, s.selectedDomainGaugeMap.find?
          (fun x => x.1 == domainCode) = some e := by
        unfold mapHas at hHas
        cases hf : s.selectedDomainGaugeMap.find?
            (fun x => x.1 == domainCode) with
        | none => rw [hf] at hHas; simp at hHas
        | some e => exact ⟨e, rfl⟩
      have he_mem : e ∈ s.selectedDomainGaugeMap :=
        List.mem_of_find?_eq_some hfind
      have he_key : e.1 = domainCode := by
        have h := List.find?_some hfind
        simpa using h
      have he_val : e.2 = nextDomainGaugeIds gaugeIds := by
        apply hentry
        unfold mapLookup
        rw [hfind]
        rfl
      refine ⟨?_, ?_, ?_⟩
      · -- map entries are restored
        intro k
        show mapLookup (mapRemove s.selectedDomainGaugeMap domainCode ++
            [(domainCode, nextDomainGaugeIds gaugeIds)]) k =
          mapLookup s.selectedDomainGaugeMap k
        rcases eq_or_ne k domainCode with hk | hk
        · subst hk
          unfold mapLookup
          rw [List.find?_append, find?_mapRemove_self, Option.none_or, hfind]
          have hone : (([(k, nextDomainGaugeIds gaugeIds)] :
              List (String × List String)).find? (fun e => e.1 == k)) =
              some (k, nextDomainGaugeIds gaugeIds) := by
            simp [List.find?_cons]
          rw [hone]
          simp [he_val]
        · unfold mapLookup
          rw [List.find?_append]
          have hsingle : (([(domainCode, nextDomainGaugeIds gaugeIds)] :
              List (String × List String)).find? (fun e => e.1 == k)) = none := by
            have hkd : (domainCode == k) = false :=
              beq_eq_false_iff_ne.mpr (fun h => hk h.symm)
            simp [List.find?_cons, hkd]
          rw [hsingle]
          have hrem : (mapRemove s.selectedDomainGaugeMap domainCode).find?
              (fun e => e.1 == k) =
              s.selectedDomainGaugeMap.find? (fun e => e.1 == k) := by
            unfold mapRemove
            apply find?_filter_of_imp
            intro a ha
            have ha1 : a.1 = k := beq_iff_eq.mp ha
            simp [ha1, hk]
          rw [hrem]
          cases hf : s.selectedDomainGaugeMap.find? (fun e => e.1 == k) <;>
            simp
      · -- the selected codes are the same set
        intro x
        show x ∈ ((mapRemove s.selectedDomainGaugeMap domainCode ++
            [(domainCode, nextDomainGaugeIds gaugeIds)]).map (fun e => e.1)) ↔
          x ∈ s.selectedDomainCodes
        rw [List.map_append, List.mem_append]
        constructor
        · intro hx
          rcases hx with hx | hx
          · have h := (mem_keys_mapRemove s.selectedDomainGaugeMap
              domainCode x).mp hx
            exact (hcodes x).mpr h.1
          · have hx2 : x = domainCode := by simpa using hx
            exact (hcodes x).mpr
              (hx2 ▸ he_key ▸ List.mem_map.mpr ⟨e, he_mem, rfl⟩)
        · intro hx
          have hxk := (hcodes x).mp hx
          rcases eq_or_ne x domainCode with hxd | hxd
          · right
            simp [hxd]
          · left
            exact (mem_keys_mapRemove s.selectedDomainGaugeMap domainCode x).mpr
              ⟨hxk, hxd⟩
      · -- the selected gauge ids are the same set
        intro x
        show x ∈ derivedDomainGaugeIds
            (mapRemove s.selectedDomainGaugeMap domainCode ++
              [(domainCode, nextDomainGaugeIds gaugeIds)]) ↔
          x ∈ s.selectedGaugeIds
        rw [hgauges x, mem_derivedDomainGaugeIds, mem_derivedDomainGaugeIds]
        constructor
        · rintro ⟨hxe, f, hf, hxf⟩
          refine ⟨hxe, ?_⟩
          rcases List.mem_append.mp hf with hf2 | hf2
          · exact ⟨f, List.mem_of_mem_filter hf2, hxf⟩
          · have hfe : f = (domainCode, nextDomainGaugeIds gaugeIds) := by
              simpa using hf2
            refine ⟨e, he_mem, ?_⟩
            rw [he_val]
            rw [hfe] at hxf
            exact hxf
        · rintro ⟨hxe, f, hf, hxf⟩
          refine ⟨hxe, ?_⟩
          rcases eq_or_ne f.1 domainCode with hfd | hfd
          · have hef : s.selectedDomainGaugeMap.find?
                (fun x => x.1 == domainCode) = some f :=
              find?_eq_of_keys_nodup s.selectedDomainGaugeMap f domainCode
                hkN hf hfd
            have hfeq : f = e := by
              rw [hef] at hfind
              exact Option.some.inj hfind
            refine ⟨(domainCode, nextDomainGaugeIds gaugeIds),
              List.mem_append.mpr (Or.inr (by simp)), ?_⟩
            show x ∈ nextDomainGaugeIds gaugeIds
            rw [← he_val, ← hfeq]
            exact hxf
          · refine ⟨f, List.mem_append.mpr (Or.inl ?_), hxf⟩
            exact List.mem_filter.mpr ⟨hf, by simp [hfd]⟩
    · -- the code was not selected: entry added, then removed again
      rw [if_neg hHas,
        toggleDomainSelection_multiple domainCode gaugeIds
          (domainAddState s domainCode gaugeIds) h0 hS']
      have habs : domainCode ∉ s.selectedDomainGaugeMap.map (fun e => e.1) :=
        (mapHas_eq_false_iff _ _).mp (by simpa using hHas)
      have hHas2 : mapHas
          (domainAddState s domainCode gaugeIds).selectedDomainGaugeMap
          domainCode = true := by
        show mapHas (s.selectedDomainGaugeMap ++
            [(domainCode, nextDomainGaugeIds gaugeIds)]) domainCode = true
        unfold mapHas
        rw [List.find?_append,
          find?_eq_none_of_mapHas_false _ _ (by simpa using hHas),
          Option.none_or]
        simp [List.find?_cons]
      rw [if_pos hHas2]
      have hback : mapRemove (s.selectedDomainGaugeMap ++
          [(domainCode, nextDomainGaugeIds gaugeIds)]) domainCode =
          s.selectedDomainGaugeMap := by
        unfold mapRemove
        rw [List.filter_append]
        have h1 : s.selectedDomainGaugeMap.filter
            (fun e => !(e.1 == domainCode)) = s.selectedDomainGaugeMap :=
          mapRemove_eq_self s.selectedDomainGaugeMap domainCode habs
        have h2 : ([(domainCode, nextDomainGaugeIds gaugeIds)] :
            List (String × List String)).filter
            (fun e => !(e.1 == domainCode)) = [] := by simp
        rw [h1, h2, List.append_nil]
      refine ⟨?_, ?_, ?_⟩
      · intro k
        show mapLookup (mapRemove (s.selectedDomainGaugeMap ++
            [(domainCode, nextDomainGaugeIds gaugeIds)]) domainCode) k =
          mapLookup s.selectedDomainGaugeMap k
        rw [hback]
      · intro x
        show x ∈ ((mapRemove (s.selectedDomainGaugeMap ++
            [(domainCode, nextDomainGaugeIds gaugeIds)]) domainCode).map
              (fun e => e.1)) ↔ x ∈ s.selectedDomainCodes
        rw [hback]
        exact (hcodes x).symm
      · intro x
        show x ∈ derivedDomainGaugeIds (mapRemove (s.selectedDomainGaugeMap ++
            [(domainCode, nextDomainGaugeIds gaugeIds)]) domainCode) ↔
          x ∈ s.selectedGaugeIds
        rw [hback]
        exact (hgauges x).symm

/-- Witness for the amended C9 at a concrete consistent state: toggling
domain `"d"` with gauge list `["a"]` twice restores the selection, and
toggling gauge `"g"` twice restores the gauge set. -/
theorem claim9_toggle_twice_amended_witness :
    (("a" ∈ (toggleGaugeSelection "g"
          (toggleGaugeSelection "g" cexStreamsState)).selectedGaugeIds ↔
        "a" ∈ cexStreamsState.selectedGaugeIds)
      ∧ (mapLookup (toggleDomainSelection "d" ["a"]
            (toggleDomainSelection "d" ["a"]
              cexStreamsState)).selectedDomainGaugeMap "d" =
          mapLookup cexStreamsState.selectedDomainGaugeMap "d")
      ∧ ("a" ∈ (toggleDomainSelection "d" ["a"]
            (toggleDomainSelection "d" ["a"]
              cexStreamsState)).selectedGaugeIds ↔
          "a" ∈ cexStreamsState.selectedGaugeIds)) := by
  have hgauges : ∀ x, x ∈ cexStreamsState.selectedGaugeIds ↔
      x ∈ derivedDomainGaugeIds cexStreamsState.selectedDomainGaugeMap := by
    have hder : derivedDomainGaugeIds cexStreamsState.selectedDomainGaugeMap =
        cexStreamsState.selectedGaugeIds := by decide
    intro x
    rw [hder]
  have hentry : ∀ v, mapLookup cexStreamsState.selectedDomainGaugeMap "d" =
      some v → v = nextDomainGaugeIds ["a"] := by
    intro v hv
    have h1 : mapLookup cexStreamsState.selectedDomainGaugeMap "d" =
        some ["a"] := by decide
    rw [h1] at hv
    have hv2 := Option.some.inj hv
    rw [← hv2]
    decide
  have hdom := claim9_toggle_twice_amended.2 cexStreamsState "d" ["a"] rfl
    (by decide) (by decide) (fun x => Iff.rfl) hgauges hentry
  exact ⟨claim9_toggle_twice_amended.1 cexStreamsState "g" rfl (by decide) "a",
    hdom.1 "d", hdom.2.2 "a"⟩

/-! ## The HUC10-by-HUC6 resolver (`queryHuc10ByHuc6`) -/

/-- The attribute-field candidates tried by `queryHuc10ByHuc6`. -/
def fieldCandidates : List String :=
  ["HUC10", "HUC_10", "HUC", "huc10", "huc_code", "HUC_CODE", "HU_10"]

/-- The candidate order actually used: the previously detected field first
(when one is recorded), followed by the remaining candidates. -/
def orderedFieldCandidates (detectedField : String) : List String :=
  if detectedField = "" then fieldCandidates
  else detectedField :: fieldCandidates.filter (fun f => f ≠ detectedField)

/-- A single-quote character, used in the `LIKE` clause. -/
def singleQuote : String := String.mk [Char.ofNat 39]

/-- The where clause built by `runHuc10WhereQuery`:
the JS template is the field name, ` LIKE `, and the quoted code followed
by a percent wildcard. -/
def whereClause (field huc6Code : String) : String :=
  field ++ " LIKE " ++ singleQuote ++ huc6Code ++ "%" ++ singleQuote

/-- A remote query actually issued against the HUC10 layer. -/
inductive RemoteCall where
  | whereQuery (clause : String) : RemoteCall
  | intersects : RemoteCall
deriving DecidableEq

/-- The remote service's behaviour, abstracted: what each where-query
(field, normalized code) resolves or rejects with, and what the
intersection query resolves or rejects with for a geometry. -/
structure QueryEnv where
  whereResult : String → String → Except String FeatureCollection
  intersectsResult : Geometry → Except String FeatureCollection

/-- The component state read and written by `queryHuc10ByHuc6`: the cache
`Map` keyed by normalized code, and the detected field ref. -/
structure HucQueryState where
  huc10QueryCache : List (String × FeatureCollection)
  huc10DetectedField : String
deriving DecidableEq

/-- `huc10QueryCache.get` (first binding wins; a key is inserted only when
absent, so bindings are unique). -/
def cacheLookup (cache : List (String × FeatureCollection)) (key : String) :
    Option FeatureCollection :=
  (cache.find? (fun e => e.1 == key)).map (fun e => e.2)

/-- `huc10QueryCache.set`. -/
def cacheInsert (cache : List (String × FeatureCollection)) (key : String)
    (value : FeatureCollection) : List (String × FeatureCollection) :=
  (key, value) :: cache

/-- The `for (const field of orderedFieldCandidates)` loop: try each field's
where-query in order; an error (`catch {}`) or an empty result moves on to
the next candidate; the first non-empty result wins.  Returns the winning
field and collection (if any) together with the list of issued calls. -/
def tryFieldCandidates (env : QueryEnv) (normalizedCode : String) :
    List String → Option (String × FeatureCollection) × List RemoteCall
  | [] => (none, [])
  | field :: rest =>
    match env.whereResult field normalizedCode with
    | Except.error _ =>
      let r := tryFieldCandidates env normalizedCode rest
      (r.1, RemoteCall.whereQuery (whereClause field normalizedCode) :: r.2)
    | Except.ok collection =>
      if collection.features.isEmpty then
        let r := tryFieldCandidates env normalizedCode rest
        (r.1, RemoteCall.whereQuery (whereClause field normalizedCode) :: r.2)
      else
        (some (field, collection),
          [RemoteCall.whereQuery (whereClause field normalizedCode)])

/-- The fallback `runHuc10IntersectsQuery` step together with the final
cache update (`if (normalizedCode) huc10QueryCache.set(...)`); an error
propagates (the `await` rejects before any cache write). -/
def intersectsFallback (env : QueryEnv) (huc6Geometry : Geometry)
    (st : HucQueryState) (normalizedCode : String) (callLog : List RemoteCall) :
    Except String FeatureCollection × HucQueryState × List RemoteCall :=
  match env.intersectsResult huc6Geometry with
  | Except.error e =>
    (Except.error e, st, callLog ++ [RemoteCall.intersects])
  | Except.ok collection =>
    (Except.ok collection,
      { st with huc10QueryCache :=
          if normalizedCode = "" then st.huc10QueryCache
          else cacheInsert st.huc10QueryCache normalizedCode collection },
      callLog ++ [RemoteCall.intersects])

/-- `queryHuc10ByHuc6(huc6Geometry, huc6Code)`: return the cached collection
for a non-empty normalized code; otherwise try the ordered field candidates
(recording the winning field and caching the result), and fall back to the
geometric intersection query when every candidate failed or returned no
features, or when the code normalizes to the empty string. -/
def queryHuc10ByHuc6 (env : QueryEnv) (huc6Geometry : Geometry)
    (huc6Code : String) (st : HucQueryState) :
    Except String FeatureCollection × HucQueryState × List RemoteCall :=
  let normalizedCode := normalizeHucCode huc6Code
  if normalizedCode = "" then
    intersectsFallback env huc6Geometry st normalizedCode []
  else
    match cacheLookup st.huc10QueryCache normalizedCode with
    | some cached => (Except.ok cached, st, [])
    | none =>
      match tryFieldCandidates env normalizedCode
          (orderedFieldCandidates st.huc10DetectedField) with
      | (some (field, collection), callLog) =>
        (Except.ok collection,
          { huc10QueryCache :=
              cacheInsert st.huc10QueryCache normalizedCode collection
            huc10DetectedField := field },
          callLog)
      | (none, callLog) =>
        intersectsFallback env huc6Geometry st normalizedCode callLog

/-- A where-query outcome that makes the loop move on: an error (caught and
ignored) or a collection without features. -/
def whereFailsOrEmpty : Except String FeatureCollection → Bool
  | Except.error _ => true
  | Except.ok collection => collection.features.isEmpty

/-- Looking up the key just inserted returns the inserted value. -/
theorem cacheLookup_insert_self (cache : List (String × FeatureCollection))
    (key : String) (value : FeatureCollection) :
    cacheLookup (cacheInsert cache key value) key = some value := by
  unfold cacheLookup cacheInsert
  simp [List.find?_cons]

/-- Inserting under one key leaves other keys' lookups unchanged. -/
theorem cacheLookup_insert_ne (cache : List (String × FeatureCollection))
    (key : String) (value : FeatureCollection) (k2 : String) (h : k2 ≠ key) :
    cacheLookup (cacheInsert cache key value) k2 = cacheLookup cache k2 := by
  unfold cacheLookup cacheInsert
  have hb : (key == k2) = false :=
    beq_eq_false_iff_ne.mpr (fun he => h he.symm)
  simp [List.find?_cons, hb]

/-- When every field candidate fails or returns no features, the loop finds
nothing and issues exactly one where-query per candidate, in order. -/
theorem tryFieldCandidates_all_fail (env : QueryEnv) (normalizedCode : String) :
    ∀ fields : List String,
    (∀ g ∈ fields, whereFailsOrEmpty (env.whereResult g normalizedCode) = true) →
    tryFieldCandidates env normalizedCode fields =
      (none, fields.map
        (fun g => RemoteCall.whereQuery (whereClause g normalizedCode))) := by
  intro fields
  induction fields with
  | nil => intro _; rfl
  | cons field rest ih =>
    intro h
    have hf := h field (List.mem_cons_self field rest)
    have hrest := ih (fun g hg => h g (List.mem_cons_of_mem field hg))
    unfold tryFieldCandidates
    cases hw : env.whereResult field normalizedCode with
    | error e => simp [hrest]
    | ok collection =>
      have hemp : collection.features.isEmpty = true := by
        unfold whereFailsOrEmpty at hf
        rw [hw] at hf
        exact hf
      simp [hemp, hrest]

/-- When the candidates are a failing prefix followed by a field whose
where-query returns features, the loop returns that field and collection
and issues exactly the where-queries for the prefix and the winner. -/
theorem tryFieldCandidates_first_success (env : QueryEnv)
    (normalizedCode field : String) (collection : FeatureCollection)
    (hok : env.whereResult field normalizedCode = Except.ok collection)
    (hne : collection.features ≠ []) :
    ∀ (pre post : List String),
    (∀ g ∈ pre, whereFailsOrEmpty (env.whereResult g normalizedCode) = true) →
    tryFieldCandidates env normalizedCode (pre ++ field :: post) =
      (some (field, collection), (pre ++ [field]).map
        (fun g => RemoteCall.whereQuery (whereClause g normalizedCode))) := by
  intro pre
  induction pre with
  | nil =>
    intro post _
    have hemp : collection.features.isEmpty = false := by
      cases hfs : collection.features with
      | nil => exact absurd hfs hne
      | cons a l => rfl
    rw [List.nil_append]
    unfold tryFieldCandidates
    simp [hok, hemp]
  | cons g pre ih =>
    intro post h
    have hg := h g (List.mem_cons_self g pre)
    have hpre := ih post (fun g2 hg2 => h g2 (List.mem_cons_of_mem g hg2))
    rw [List.cons_append]
    unfold tryFieldCandidates
    cases hw : env.whereResult g normalizedCode with
    | error e => simp [hpre]
    | ok c2 =>
      have hemp : c2.features.isEmpty = true := by
        unfold whereFailsOrEmpty at hg
        rw [hw] at hg
        exact hg
      simp [hemp, hpre]

/-- With an empty normalized code the resolver goes straight to the
geometric intersection query: the cache is neither read nor written, the
detected field is untouched, and the single remote call is the
intersection. -/
theorem queryHuc10_empty_norm (env : QueryEnv) (geom : Geometry)
    (code : String) (st : HucQueryState) (h : normalizeHucCode code = "") :
    queryHuc10ByHuc6 env geom code st =
      (env.intersectsResult geom, st, [RemoteCall.intersects]) := by
  unfold queryHuc10ByHuc6 intersectsFallback
  rw [h]
  simp only [if_true]
  cases hi : env.intersectsResult geom with
  | error e => simp
  | ok collection => simp

/-- C3: results are cached by normalized HUC6 code.  (i) A cache hit for a
non-empty normalized code returns the cached collection, leaves the state
unchanged and issues no remote query.  (ii) Every successful call with a
non-empty normalized code leaves its result cached under that code.
(iii) Existing cache entries survive every call unchanged.  (iv) A code that
normalizes to the empty string neither reads nor writes the cache: the call
reduces to the intersection query with the state returned untouched.
(v) Hence, once a call has returned a collection for a code, a later call
with any code normalizing to the same string returns that same collection,
with no remote query and no state change. -/
theorem claim3_cache_by_normalized_code :
    (∀ (env : QueryEnv) (geom : Geometry) (code : String)
        (st : HucQueryState) (fc : FeatureCollection),
        normalizeHucCode code ≠ "" →
        cacheLookup st.huc10QueryCache (normalizeHucCode code) = some fc →
        queryHuc10ByHuc6 env geom code st = (Except.ok fc, st, []))
    ∧ (∀ (env : QueryEnv) (geom : Geometry) (code : String)
        (st st2 : HucQueryState) (fc : FeatureCollection)
        (callLog : List RemoteCall),
        normalizeHucCode code ≠ "" →
        queryHuc10ByHuc6 env geom code st = (Except.ok fc, st2, callLog) →
        cacheLookup st2.huc10QueryCache (normalizeHucCode code) = some fc)
    ∧ (∀ (env : QueryEnv) (geom : Geometry) (code : String)
        (st : HucQueryState) (k : String) (v : FeatureCollection),
        cacheLookup st.huc10QueryCache k = some v →
        cacheLookup
          (queryHuc10ByHuc6 env geom code st).2.1.huc10QueryCache k = some v)
    ∧ (∀ (env : QueryEnv) (geom : Geometry) (code : String)
        (st : HucQueryState),
        normalizeHucCode code = "" →
        queryHuc10ByHuc6 env geom code st =
          (env.intersectsResult geom, st, [RemoteCall.intersects]))
    ∧ (∀ (env env2 : QueryEnv) (geom geom2 : Geometry) (code code2 : String)
        (st st2 : HucQueryState) (fc : FeatureCollection)
        (callLog : List RemoteCall),
        normalizeHucCode code ≠ "" →
        normalizeHucCode code2 = normalizeHucCode code →
        queryHuc10ByHuc6 env geom code st = (Except.ok fc, st2, callLog) →
        queryHuc10ByHuc6 env2 geom2 code2 st2 = (Except.ok fc, st2, [])) := by
  have hhit : ∀ (env : QueryEnv) (geom : Geometry) (code : String)
      (st : HucQueryState) (fc : FeatureCollection),
      normalizeHucCode code ≠ "" →
      cacheLookup st.huc10QueryCache (normalizeHucCode code) = some fc →
      queryHuc10ByHuc6 env geom code st = (Except.ok fc, st, []) := by
    intro env geom code st fc hne hcl
    unfold queryHuc10ByHuc6
    rw [if_neg hne, hcl]
  have hfill : ∀ (env : QueryEnv) (geom : Geometry) (code : String)
      (st st2 : HucQueryState) (fc : FeatureCollection)
      (callLog : List RemoteCall),
      normalizeHucCode code ≠ "" →
      queryHuc10ByHuc6 env geom code st = (Except.ok fc, st2, callLog) →
      cacheLookup st2.huc10QueryCache (normalizeHucCode code) = some fc := by
    intro env geom code st st2 fc callLog hne heq
    unfold queryHuc10ByHuc6 at heq
    rw [if_neg hne] at heq
    cases hcl : cacheLookup st.huc10QueryCache (normalizeHucCode code) with
    | some cached =>
      rw [hcl] at heq
      simp only [Prod.mk.injEq, Except.ok.injEq] at heq
      obtain ⟨h1, h2, _⟩ := heq
      rw [← h2, hcl, h1]
    | none =>
      rw [hcl] at heq
      rcases htf : tryFieldCandidates env (normalizeHucCode code)
          (orderedFieldCandidates st.huc10DetectedField) with ⟨ropt, rlog⟩
      rw [htf] at heq
      cases ropt with
      | some p =>
        obtain ⟨field, collection⟩ := p
        simp only [Prod.mk.injEq, Except.ok.injEq] at heq
        obtain ⟨h1, h2, _⟩ := heq
        rw [← h2, ← h1]
        exact cacheLookup_insert_self _ _ _
      | none =>
        unfold intersectsFallback at heq
        cases hi : env.intersectsResult geom with
        | error e =>
          rw [hi] at heq
          simp at heq
        | ok collection =>
          rw [hi] at heq
          simp only [Prod.mk.injEq, Except.ok.injEq] at heq
          obtain ⟨h1, h2, _⟩ := heq
          rw [← h2, if_neg hne, ← h1]
          exact cacheLookup_insert_self _ _ _
  have hpres : ∀ (env : QueryEnv) (geom : Geometry) (code : String)
      (st : HucQueryState) (k : String) (v : FeatureCollection),
      cacheLookup st.huc10QueryCache k = some v →
      cacheLookup
        (queryHuc10ByHuc6 env geom code st).2.1.huc10QueryCache k = some v := by
    intro env geom code st k v hk
    unfold queryHuc10ByHuc6
    by_cases hne : normalizeHucCode code = ""
    · rw [if_pos hne]
      unfold intersectsFallback
      cases hi : env.intersectsResult geom with
      | error e => exact hk
      | ok collection =>
        simp only []
        rw [if_pos hne]
        exact hk
    · rw [if_neg hne]
      cases hcl : cacheLookup st.huc10QueryCache (normalizeHucCode code) with
      | some cached => exact hk
      | none =>
        have hkne : k ≠ normalizeHucCode code := by
          intro hkk
          rw [hkk, hcl] at hk
          exact Option.noConfusion hk
        rcases htf : tryFieldCandidates env (normalizeHucCode code)
            (orderedFieldCandidates st.huc10DetectedField) with ⟨ropt, rlog⟩
        cases ropt with
        | some p =>
          obtain ⟨field, collection⟩ := p
          simp only []
          rw [cacheLookup_insert_ne _ _ _ _ hkne]
          exact hk
        | none =>
          unfold intersectsFallback
          cases hi : env.intersectsResult geom with
          | error e => exact hk
          | ok collection =>
            simp only []
            rw [if_neg hne, cacheLookup_insert_ne _ _ _ _ hkne]
            exact hk
  refine ⟨hhit, hfill, hpres, fun env geom code st h =>
    queryHuc10_empty_norm env geom code st h, ?_⟩
  intro env env2 geom geom2 code code2 st st2 fc callLog hne hsame heq
  have hcached := hfill env geom code st st2 fc callLog hne heq
  apply hhit
  · rw [hsame]
    exact hne
  · rw [hsame]
    exact hcached

/-- The intersection fallback returns exactly the intersection query's
outcome and appends exactly one intersection call to the log. -/
theorem intersectsFallback_result (env : QueryEnv) (geom : Geometry)
    (st : HucQueryState) (normalizedCode : String)
    (callLog : List RemoteCall) :
    (intersectsFallback env geom st normalizedCode callLog).1 =
      env.intersectsResult geom
    ∧ (intersectsFallback env geom st normalizedCode callLog).2.2 =
      callLog ++ [RemoteCall.intersects] := by
  unfold intersectsFallback
  cases hi : env.intersectsResult geom with
  | error e => exact ⟨rfl, rfl⟩
  | ok collection => exact ⟨rfl, rfl⟩

/-- C4: for an uncached code with non-empty normalization the resolver tries
the candidate attribute fields in order — the previously detected field
first when one is recorded — issuing the where-query `field LIKE 'code%'`
for each; an error or an empty result moves on to the next candidate; the
first non-empty result is returned, with that field recorded as detected and
no intersection query issued; only when every candidate has failed or
returned no features (or when the code normalizes to the empty string) does
it fall back to the geometric intersection query, whose outcome it
returns. -/
theorem claim4_fields_in_order_then_intersects :
    (orderedFieldCandidates "" = fieldCandidates)
    ∧ (∀ detectedField : String, detectedField ≠ "" →
        orderedFieldCandidates detectedField =
          detectedField :: fieldCandidates.filter (fun f => f ≠ detectedField))
    ∧ (∀ (env : QueryEnv) (geom : Geometry) (code : String)
        (st : HucQueryState) (pre post : List String) (field : String)
        (collection : FeatureCollection),
        normalizeHucCode code ≠ "" →
        cacheLookup st.huc10QueryCache (normalizeHucCode code) = none →
        orderedFieldCandidates st.huc10DetectedField = pre ++ field :: post →
        (∀ g ∈ pre, whereFailsOrEmpty
          (env.whereResult g (normalizeHucCode code)) = true) →
        env.whereResult field (normalizeHucCode code) = Except.ok collection →
        collection.features ≠ [] →
        queryHuc10ByHuc6 env geom code st =
          (Except.ok collection,
            { huc10QueryCache :=
                cacheInsert st.huc10QueryCache (normalizeHucCode code)
                  collection
              huc10DetectedField := field },
            (pre ++ [field]).map (fun g =>
              RemoteCall.whereQuery (whereClause g (normalizeHucCode code)))))
    ∧ (∀ (env : QueryEnv) (geom : Geometry) (code : String)
        (st : HucQueryState),
        normalizeHucCode code ≠ "" →
        cacheLookup st.huc10QueryCache (normalizeHucCode code) = none →
        (∀ g ∈ orderedFieldCandidates st.huc10DetectedField,
          whereFailsOrEmpty
            (env.whereResult g (normalizeHucCode code)) = true) →
        (queryHuc10ByHuc6 env geom code st).1 = env.intersectsResult geom
        ∧ (queryHuc10ByHuc6 env geom code st).2.2 =
            (orderedFieldCandidates st.huc10DetectedField).map (fun g =>
              RemoteCall.whereQuery (whereClause g (normalizeHucCode code))) ++
              [RemoteCall.intersects])
    ∧ (∀ (env : QueryEnv) (geom : Geometry) (code : String)
        (st : HucQueryState),
        normalizeHucCode code = "" →
        (queryHuc10ByHuc6 env geom code st).1 = env.intersectsResult geom
        ∧ (queryHuc10ByHuc6 env geom code st).2.2 = [RemoteCall.intersects]) := by
  refine ⟨rfl, ?_, ?_, ?_, ?_⟩
  · intro detectedField h
    unfold orderedFieldCandidates
    rw [if_neg h]
  · intro env geom code st pre post field collection hne hcl hord hpre hok hfne
    unfold queryHuc10ByHuc6
    rw [if_neg hne, hcl, hord,
      tryFieldCandidates_first_success env (normalizeHucCode code) field
        collection hok hfne pre post hpre]
  · intro env geom code st hne hcl hall
    unfold queryHuc10ByHuc6
    rw [if_neg hne, hcl,
      tryFieldCandidates_all_fail env (normalizeHucCode code) _ hall]
    exact intersectsFallback_result env geom st (normalizeHucCode code) _
  · intro env geom code st hne
    rw [queryHuc10_empty_norm env geom code st hne]
    exact ⟨rfl, rfl⟩

/-- A feature/collection used by the concrete witnesses. -/
def witnessCollection : FeatureCollection :=
  { features := [{ properties := [("HUC10", "1234567890")] }] }

/-- A concrete remote-service behaviour: the `HUC10` field errors, the
`HUC_10` field answers with features, everything else errors; the
intersection query answers with features. -/
def witnessEnv : QueryEnv :=
  { whereResult := fun field _ =>
      if field = "HUC10" then Except.error "boom"
      else if field = "HUC_10" then Except.ok witnessCollection
      else Except.error "nope"
    intersectsResult := fun _ => Except.ok witnessCollection }

/-- A state whose cache already holds code `123456`. -/
def witnessCachedState : HucQueryState :=
  { huc10QueryCache := [("123456", witnessCollection)]
    huc10DetectedField := "" }

/-- Witness for C3: with code `"123456"` cached, the resolver returns the
cached collection, leaves the state unchanged and issues no remote call. -/
theorem claim3_cache_by_normalized_code_witness :
    queryHuc10ByHuc6 witnessEnv Geometry.nullGeom "123456"
        witnessCachedState =
      (Except.ok witnessCollection, witnessCachedState, []) :=
  claim3_cache_by_normalized_code.1 witnessEnv Geometry.nullGeom "123456"
    witnessCachedState witnessCollection (by decide) (by decide)

/-- Witness for C4: from an empty cache with no detected field, the `HUC10`
candidate errors, the `HUC_10` candidate returns features; the resolver
returns them, records `HUC_10` as detected, caches the result, and the log
holds exactly the two where-queries in candidate order. -/
theorem claim4_fields_in_order_then_intersects_witness :
    queryHuc10ByHuc6 witnessEnv Geometry.nullGeom "123456"
        { huc10QueryCache := [], huc10DetectedField := "" } =
      (Except.ok witnessCollection,
        { huc10QueryCache := [("123456", witnessCollection)]
          huc10DetectedField := "HUC_10" },
        (["HUC10"] ++ ["HUC_10"]).map (fun g =>
          RemoteCall.whereQuery (whereClause g "123456"))) := by
  have h := claim4_fields_in_order_then_intersects.2.2.1 witnessEnv
    Geometry.nullGeom "123456" { huc10QueryCache := [], huc10DetectedField := "" }
    ["HUC10"] ["HUC", "huc10", "huc_code", "HUC_CODE", "HU_10"] "HUC_10"
    witnessCollection (by decide) rfl rfl (by decide) rfl (by decide)
  exact h

/-! ## The HUC6 click handler: request-id generation counter (C2, C5) -/

/-- The component state relevant to the stale-response protection: the
`huc10QueryRequestId` ref, the set of remembered ids of still-unresolved
queries (implicit in JS as the outstanding promises), and the features
currently on the HUC10 layer. -/
structure MapState where
  huc10QueryRequestId : ℕ
  pendingRequestIds : List ℕ
  huc10LayerFeatures : List Feature
deriving DecidableEq

/-- Initial state: `huc10QueryRequestId = ref(0)`, nothing pending, empty
layer. -/
def initMapState : MapState :=
  { huc10QueryRequestId := 0, pendingRequestIds := [], huc10LayerFeatures := [] }

/-- A HUC6 click: `const requestId = ++huc10QueryRequestId.value` — the
counter is incremented by one and the handler remembers the incremented
value for the query it launches. -/
def huc6ClickStep (s : MapState) : MapState :=
  { s with
    huc10QueryRequestId := s.huc10QueryRequestId + 1
    pendingRequestIds := (s.huc10QueryRequestId + 1) :: s.pendingRequestIds }

/-- A query resolution: `if (requestId !== huc10QueryRequestId.value ||
!isStreamRoute()) return` — the layer is cleared and repopulated with the
`strictlyNested` features only when the remembered id still equals the
counter and the stream route is active; otherwise the response is
discarded. -/
def huc10ResolveStep (s : MapState) (rememberedId : ℕ) (onStreamRoute : Bool)
    (huc6Code : String) (fc : FeatureCollection) : MapState :=
  if rememberedId = s.huc10QueryRequestId ∧ onStreamRoute = true then
    { s with
      pendingRequestIds := s.pendingRequestIds.erase rememberedId
      huc10LayerFeatures := strictlyNested huc6Code fc.features }
  else
    { s with pendingRequestIds := s.pendingRequestIds.erase rememberedId }

/-- The events affecting the counter and the HUC10 layer. -/
inductive MapEvent where
  | huc6Click : MapEvent
  | huc10Resolve (rememberedId : ℕ) (onStreamRoute : Bool)
      (huc6Code : String) (fc : FeatureCollection) : MapEvent

/-- One step of the click/resolve protocol. -/
def mapStep (s : MapState) : MapEvent → MapState
  | MapEvent.huc6Click => huc6ClickStep s
  | MapEvent.huc10Resolve rememberedId onStreamRoute huc6Code fc =>
      huc10ResolveStep s rememberedId onStreamRoute huc6Code fc

/-- Run a trace of events from the initial state. -/
def runMapEvents (events : List MapEvent) : MapState :=
  events.foldl mapStep initMapState

/-- Number of clicks in a trace. -/
def countClicks (events : List MapEvent) : ℕ :=
  events.countP (fun e => match e with
    | MapEvent.huc6Click => true
    | _ => false)

/-- Along any run, every pending remembered id is at most the counter. -/
theorem pending_le_counter (events : List MapEvent) :
    ∀ rid ∈ (runMapEvents events).pendingRequestIds,
      rid ≤ (runMapEvents events).huc10QueryRequestId := by
  have haux : ∀ (l : List MapEvent) (s : MapState),
      (∀ rid ∈ s.pendingRequestIds, rid ≤ s.huc10QueryRequestId) →
      ∀ rid ∈ (l.foldl mapStep s).pendingRequestIds,
        rid ≤ (l.foldl mapStep s).huc10QueryRequestId := by
    intro l
    induction l with
    | nil => intro s hs; exact hs
    | cons e l ih =>
      intro s hs
      apply ih
      cases e with
      | huc6Click =>
        intro rid hrid
        rcases List.mem_cons.mp hrid with h | h
        · exact h ▸ le_refl _
        · exact le_trans (hs rid h) (Nat.le_succ _)
      | huc10Resolve rememberedId onStreamRoute huc6Code fc =>
        intro rid hrid
        simp only [mapStep, huc10ResolveStep] at hrid ⊢
        by_cases hc : rememberedId = s.huc10QueryRequestId ∧
            onStreamRoute = true
        · rw [if_pos hc] at hrid ⊢
          exact hs rid (List.mem_of_mem_erase hrid)
        · rw [if_neg hc] at hrid ⊢
          exact hs rid (List.mem_of_mem_erase hrid)
  exact haux events initMapState (fun rid hrid => absurd hrid
    (List.not_mem_nil rid))

/-- Along any run, the counter equals the number of clicks so far: it is
only ever incremented, by one per click, and never decremented or reset. -/
theorem counter_eq_countClicks (events : List MapEvent) :
    (runMapEvents events).huc10QueryRequestId = countClicks events := by
  have haux : ∀ (l : List MapEvent) (s : MapState),
      (l.foldl mapStep s).huc10QueryRequestId =
        s.huc10QueryRequestId + countClicks l := by
    intro l
    induction l with
    | nil => intro s; simp [countClicks]
    | cons e l ih =>
      intro s
      rw [List.foldl_cons, ih]
      cases e with
      | huc6Click =>
        simp only [mapStep, huc6ClickStep, countClicks, List.countP_cons,
          if_true]
        omega
      | huc10Resolve rememberedId onStreamRoute huc6Code fc =>
        have hsame : (mapStep s (MapEvent.huc10Resolve rememberedId
            onStreamRoute huc6Code fc)).huc10QueryRequestId =
            s.huc10QueryRequestId := by
          simp only [mapStep, huc10ResolveStep]
          by_cases hc : rememberedId = s.huc10QueryRequestId ∧
              onStreamRoute = true
          · rw [if_pos hc]
          · rw [if_neg hc]
        rw [hsame]
        simp only [countClicks, List.countP_cons]
        simp
  rw [runMapEvents, haux]
  simp [initMapState]

/-- C2: the request-id generation counter discards stale responses.  Each
HUC6 click increments `huc10QueryRequestId` by exactly one and the handler
remembers the incremented value; a resolve step never changes the counter
and no step decreases it (along a whole run it equals the number of clicks,
so it is monotonically increasing and never reset); the HUC10 layer is
changed by a resolution only if the remembered id still equals the counter;
whenever the remembered id differs from the counter the response is
discarded — the state is left entirely unchanged apart from the request no
longer being pending; and every pending remembered id that differs from the
counter is strictly below it, i.e. a later click has happened — the latest
request wins. -/
theorem claim2_request_id_latest_wins :
    (∀ s : MapState,
        (huc6ClickStep s).huc10QueryRequestId = s.huc10QueryRequestId + 1
        ∧ (huc6ClickStep s).pendingRequestIds.head? =
            some ((huc6ClickStep s).huc10QueryRequestId))
    ∧ (∀ (s : MapState) (rememberedId : ℕ) (onStreamRoute : Bool)
        (huc6Code : String) (fc : FeatureCollection),
        (huc10ResolveStep s rememberedId onStreamRoute huc6Code
            fc).huc10QueryRequestId = s.huc10QueryRequestId)
    ∧ (∀ (s : MapState) (e : MapEvent),
        s.huc10QueryRequestId ≤ (mapStep s e).huc10QueryRequestId)
    ∧ (∀ events : List MapEvent,
        (runMapEvents events).huc10QueryRequestId = countClicks events)
    ∧ (∀ (s : MapState) (rememberedId : ℕ) (onStreamRoute : Bool)
        (huc6Code : String) (fc : FeatureCollection),
        (huc10ResolveStep s rememberedId onStreamRoute huc6Code
            fc).huc10LayerFeatures ≠ s.huc10LayerFeatures →
        rememberedId = s.huc10QueryRequestId ∧ onStreamRoute = true)
    ∧ (∀ (s : MapState) (rememberedId : ℕ) (onStreamRoute : Bool)
        (huc6Code : String) (fc : FeatureCollection),
        rememberedId ≠ s.huc10QueryRequestId →
        huc10ResolveStep s rememberedId onStreamRoute huc6Code fc =
          { s with pendingRequestIds :=
              s.pendingRequestIds.erase rememberedId })
    ∧ (∀ (events : List MapEvent) (rid : ℕ),
        rid ∈ (runMapEvents events).pendingRequestIds →
        rid ≠ (runMapEvents events).huc10QueryRequestId →
        rid < (runMapEvents events).huc10QueryRequestId) := by
  refine ⟨?_, ?_, ?_, counter_eq_countClicks, ?_, ?_, ?_⟩
  · intro s
    exact ⟨rfl, rfl⟩
  · intro s rememberedId onStreamRoute huc6Code fc
    unfold huc10ResolveStep
    by_cases hc : rememberedId = s.huc10QueryRequestId ∧ onStreamRoute = true
    · rw [if_pos hc]
    · rw [if_neg hc]
  · intro s e
    cases e with
    | huc6Click => exact Nat.le_succ _
    | huc10Resolve rememberedId onStreamRoute huc6Code fc =>
      simp only [mapStep, huc10ResolveStep]
      by_cases hc : rememberedId = s.huc10QueryRequestId ∧ onStreamRoute = true
      · rw [if_pos hc]
      · rw [if_neg hc]
  · intro s rememberedId onStreamRoute huc6Code fc hch
    by_cases hc : rememberedId = s.huc10QueryRequestId ∧ onStreamRoute = true
    · exact hc
    · exfalso
      apply hch
      unfold huc10ResolveStep
      rw [if_neg hc]
  · intro s rememberedId onStreamRoute huc6Code fc hne
    unfold huc10ResolveStep
    rw [if_neg (fun hc => hne hc.1)]
  · intro events rid hmem hne
    exact lt_of_le_of_ne (pending_le_counter events rid hmem) hne

/-- Witness for C2: from the initial state (counter 0), a resolution whose
remembered id is 5 is stale — the state is unchanged apart from the pending
set, and the layer in particular is untouched. -/
theorem claim2_request_id_latest_wins_witness :
    huc10ResolveStep initMapState 5 true "123456" witnessCollection =
      { initMapState with
        pendingRequestIds := initMapState.pendingRequestIds.erase 5 }
    ∧ (huc10ResolveStep initMapState 5 true "123456"
        witnessCollection).huc10LayerFeatures =
      initMapState.huc10LayerFeatures :=
  ⟨claim2_request_id_latest_wins.2.2.2.2.2.1 initMapState 5 true "123456"
      witnessCollection (by decide),
    by rw [claim2_request_id_latest_wins.2.2.2.2.2.1 initMapState 5 true
      "123456" witnessCollection (by decide)]⟩

/-- C5: when a (current, on-route) query result arrives for HUC6 code `c`,
a feature of the result collection is on the HUC10 layer if and only if its
normalized HUC10 code (as extracted by `extractWatershedMetadata`) starts
with the normalized code of `c`; when `c` normalizes to the empty string,
every returned feature is kept. -/
theorem claim5_strictly_nested_features (s : MapState)
    (fc : FeatureCollection) (huc6Code : String) (f : Feature) :
    (f ∈ (huc10ResolveStep s s.huc10QueryRequestId true huc6Code
        fc).huc10LayerFeatures ↔
      f ∈ fc.features ∧
        (normalizeHucCode huc6Code = "" ∨
          (normalizeHucCode
            (extractWatershedMetadata f.properties 10).code).startsWith
            (normalizeHucCode huc6Code))) := by
  unfold huc10ResolveStep
  rw [if_pos ⟨rfl, rfl⟩]
  show f ∈ strictlyNested huc6Code fc.features ↔ _
  unfold strictlyNested
  rw [List.mem_filter]
  by_cases h6 : normalizeHucCode huc6Code = ""
  · simp [h6]
  · simp [h6]
